import Mathlib

/-!
# gtm: report rendering and ledger initialisation

A shallow embedding of `report/report.go` and `env/env.go`.

* Go strings are Lean `String`s; a text is compared character by character.
* A `text/template` is written out action by action: every literal text of the
  template source appears as `tplText l r raw`, where `raw` is the text as it
  stands in the source, `l` says that the action before it closes with a
  trimming delimiter and `r` that the action after it opens with one.
* `printf` is `Sprintf`, the fragment of `fmt.Sprintf` that the templates use.
* The operating system and the `scm` package are a record of operations over an
  abstract world state.
-/

namespace Gtm

/-! ## text/template and fmt -/

/-- White space as `text/template` trims it: space, tab, carriage return, newline. -/
def isSpace (c : Char) : Bool :=
  c = ' ' || c = '\t' || c = '\r' || c = '\n'

/-- Characters of a text after the white space at its start is dropped. -/
def trimLeftSpace : List Char → List Char
  | [] => []
  | c :: cs => if isSpace c then trimLeftSpace cs else c :: cs

/-- Characters of a text after the white space at its end is dropped. -/
def trimRightSpace (cs : List Char) : List Char :=
  (trimLeftSpace cs.reverse).reverse

/-- A literal text of a template. `l` is set when the action before the text
closes with the trimming delimiter (all white space at the start of the text is
removed), `r` when the action after it opens with the trimming delimiter (all
white space at its end is removed). -/
def tplText (l r : Bool) (raw : String) : String :=
  let a := if l then trimLeftSpace raw.data else raw.data
  String.mk (if r then trimRightSpace a else a)

/-- The `%Ns` verb on a string operand: the operand, padded on the left with
spaces up to `w` characters; never truncated. -/
def padLeft (w : Nat) (s : String) : String :=
  String.mk (List.replicate (w - s.length) ' ') ++ s

/-- Operands left over when the format is exhausted, as `fmt` reports them. -/
def extraArgs (args : List String) : String :=
  "%!(EXTRA " ++ ", ".intercalate (args.map fun a => "string=" ++ a) ++ ")"

/-- Scanner of `Sprintf`. The first argument is `none` while copying literal
text and `some w` after a percent sign, `w` being the width read so far. -/
def sprintfAux : Option Nat → List Char → List String → String
  | none, [], [] => ""
  | none, [], a :: args => extraArgs (a :: args)
  | none, c :: cs, args =>
      if c = '%' then sprintfAux (some 0) cs args
      else String.singleton c ++ sprintfAux none cs args
  | some _, [], _ => "%!(NOVERB)"
  | some w, c :: cs, args =>
      if c.isDigit then sprintfAux (some (10 * w + (c.toNat - 48))) cs args
      else
        match args with
        | [] => "%!" ++ String.singleton c ++ "(MISSING)" ++ sprintfAux none cs []
        | a :: rest =>
            if c = 's' then padLeft w a ++ sprintfAux none cs rest
            else "%!" ++ String.singleton c ++ "(string=" ++ a ++ ")" ++ sprintfAux none cs rest

/-- The function `fmt.Sprintf` (the template function `printf`) on string
operands, for formats made of literal text and the verb `%s` with an optional
decimal width, which are the formats of this program. Every other verb
character is reported the way `fmt` reports a verb it does not know; flags,
precision and the verbs `%v`, `%q`, `%x`, `%%` are outside the model. -/
def Sprintf (format : String) (args : List String) : String :=
  sprintfAux none format.data args

/-- The template function `print` (`fmt.Sprint`) on one string operand. -/
def Sprint (s : String) : String := s

/-! ## Data of package `note` and of the report templates -/

/-- One `note.FileDetail`, with the fields the templates read. -/
structure FileDetail where
  SourceFile : String
  TimeSpent : Int
  Status : String
deriving DecidableEq, Repr

/-- A `note.CommitNote`: the files of a commit. -/
structure CommitNote where
  Files : List FileDetail
deriving DecidableEq, Repr

/-- Modelled from the spec: the method `CommitNote.Total` of package `note` is
not part of the sources; the spec defines it as the sum of the `TimeSpent` of
all files, zero when there is none. -/
def CommitNote.Total (n : CommitNote) : Int :=
  (n.Files.map fun f => f.TimeSpent).sum

/-- The value a report template ranges over (`commitNoteDetail`): metadata of
the commit and its note. The values are built by `retrieveNotes`; the
specification describes `Subject` as the commit message header. -/
structure commitNoteDetail where
  Author : String
  Date : String
  Hash : String
  Subject : String
  Note : CommitNote
deriving DecidableEq, Repr

/-! ## report/report.go -/

/-- Template `commitDetailsTpl`: the body of the range over `.Notes`, executed
for one `$note`. -/
def commitDetailsNote (FormatDuration : Int → String) (HeaderFormat : String)
    (note : commitNoteDetail) : String :=
  tplText false true "\n\t" ++
  Sprintf HeaderFormat [note.Hash] ++
  tplText false false " " ++
  Sprintf HeaderFormat [note.Subject] ++
  tplText false true "\n\t" ++
  note.Date ++
  tplText false false " " ++
  note.Author ++
  tplText false true " " ++
  Sprintf "\n" [] ++
  tplText false true "\n\t" ++
  -- range $i, $f := .Note.Files
  String.join (note.Note.Files.map fun f =>
    tplText false true "\n\t\t" ++
    Sprintf "\n%14s" [FormatDuration f.TimeSpent] ++
    tplText false false "  [" ++
    f.Status ++
    tplText false false "] " ++
    f.SourceFile ++
    tplText false true "\n\t") ++
  -- end
  tplText false true "\n\t" ++
  (if note.Note.Files.length ≠ 0 then
    tplText false true "\n\t\t" ++
    Sprintf "\n%14s\n\n" [FormatDuration note.Note.Total] ++
    tplText false true "\n\t"
  else
    tplText false true "\n\t\t" ++
    Sprintf "\n" [] ++
    tplText false true "\n\t") ++
  -- end
  tplText false true "\n"

/-- Template `commitDetailsTpl`, executed on `.HeaderFormat` and `.Notes`. -/
def commitDetailsTpl (FormatDuration : Int → String) (HeaderFormat : String)
    (Notes : List commitNoteDetail) : String :=
  tplText false false "\n" ++
  -- $headerFormat := .HeaderFormat
  tplText false true "\n" ++
  -- range $_, $note := .Notes
  String.join (Notes.map (commitDetailsNote FormatDuration HeaderFormat)) ++
  -- end
  tplText true false ""

/-- Template `commitFilesTpl`: the body of the range over `.Note.Files`,
executed for one `$f`. -/
def commitFilesFile (FormatDuration : Int → String) (f : FileDetail) : String :=
  tplText false true "\n\t" ++
  Sprintf "%14s" [FormatDuration f.TimeSpent] ++
  tplText false false "  [" ++
  f.Status ++
  tplText false false "] " ++
  f.SourceFile ++
  tplText false false "\n"

/-- Template `commitFilesTpl`, executed on a value whose `.Note` is `Note`. -/
def commitFilesTpl (FormatDuration : Int → String) (Note : CommitNote) : String :=
  tplText false false "\n" ++
  -- range $i, $f := .Note.Files
  String.join (Note.Files.map (commitFilesFile FormatDuration)) ++
  -- end
  tplText false true "\n" ++
  (if Note.Files.length ≠ 0 then
    tplText false true "\n\t" ++
    Sprintf "%14s" [FormatDuration Note.Total] ++
    tplText false false "\n"
  else "") ++
  -- end
  tplText false false ""

/-- Template `commitTotalsTpl`: the body of the range over `.Notes`, executed
for one `$note`. -/
def commitTotalsNote (FormatDuration : Int → String) (HeaderFormat : String)
    (note : commitNoteDetail) : String :=
  tplText false true "\n\t" ++
  Sprintf HeaderFormat [note.Hash] ++
  tplText false false " " ++
  Sprintf HeaderFormat [note.Subject] ++
  tplText false true "\n\t" ++
  note.Date ++
  tplText false false " " ++
  note.Author ++
  tplText false false "  " ++
  (if note.Note.Files.length ≠ 0 then
    FormatDuration note.Note.Total
  else "") ++
  -- end
  tplText false true "\n\t" ++
  Sprint "\n" ++
  tplText false false "\n"

/-- Template `commitTotalsTpl`, executed on `.HeaderFormat` and `.Notes`. -/
def commitTotalsTpl (FormatDuration : Int → String) (HeaderFormat : String)
    (Notes : List commitNoteDetail) : String :=
  tplText false false "\n" ++
  -- $headerFormat := .HeaderFormat
  tplText false true "\n" ++
  -- range $_, $note := .Notes
  String.join (Notes.map (commitTotalsNote FormatDuration HeaderFormat)) ++
  -- end
  tplText false false ""

/-- What the report functions take from outside `report.go`. -/
structure ReportEnv where
  /-- The function `util.FormatDuration`. -/
  FormatDuration : Int → String
  /-- The function `retrieveNotes` of package `report`. -/
  retrieveNotes : List String → List commitNoteDetail
  /-- The probe `terminal.IsTerminal(int(os.Stdout.Fd()))`. -/
  IsTerminal : Bool

/-- An error value made outside the two packages: by the operating system or by
package `scm` (which package `env` imports, so that it cannot hand out the
error variables of `env`). It is identified by its message. -/
abbrev ExtError := String

/-- Go `error` values seen by the two packages. -/
inductive GoError where
  /-- The variable `env.ErrNotInitialized`. -/
  | ErrNotInitialized
  /-- The variable `env.ErrFileNotFound`. -/
  | ErrFileNotFound
  /-- A value made by `fmt.Errorf`, with its message. -/
  | Errorf (msg : String)
  /-- An error returned by the operating system or by package `scm`. -/
  | external (e : ExtError)
deriving DecidableEq, Repr

/-- The variable `headerFormat` of `NoteDetails` and `NoteDetailsTotal`. -/
def headerFormat (isTerminal : Bool) : String :=
  if isTerminal then "\x1b[1m%s\x1b[0m" else "%s"

/-- Function `NoteFiles`. Executing the template writes to a buffer and reads
fields that exist, so the error branch is never taken. -/
def NoteFiles (FormatDuration : Int → String) (n : CommitNote) : Except GoError String :=
  .ok (commitFilesTpl FormatDuration n)

/-- Function `NoteFilesTotal`. -/
def NoteFilesTotal (FormatDuration : Int → String) (n : CommitNote) : String :=
  FormatDuration n.Total

/-- Function `NoteDetails`. -/
def NoteDetails (e : ReportEnv) (commits : List String) : Except GoError String :=
  let notes := e.retrieveNotes commits
  .ok (commitDetailsTpl e.FormatDuration (headerFormat e.IsTerminal) notes)

/-- Function `NoteDetailsTotal`. -/
def NoteDetailsTotal (e : ReportEnv) (commits : List String) : Except GoError String :=
  let notes := e.retrieveNotes commits
  .ok (commitTotalsTpl e.FormatDuration (headerFormat e.IsTerminal) notes)


/-! ## env/env.go -/

/-- Variable `GTMDirectory`. -/
def GTMDirectory : String := ".gtm"

/-- Variable `GitHooks`, a Go map, as its key/value pairs in source order. -/
def GitHooks : List (String × String) :=
  [("pre-push", "git push --no-verify origin refs/notes/gtm-data"),
   ("post-commit", "gtm commit --dry-run=false")]

/-- Variable `GitConfig`, a Go map, as its key/value pairs in source order. -/
def GitConfig : List (String × String) :=
  [("remote.origin.fetch", "+refs/notes/gtm-data:refs/notes/gtm-data"),
   ("notes.rewriteref", "refs/notes/gtm-data")]

/-- Variable `GitIgnore`. -/
def GitIgnore : String := ".gtm/"

/-- Go's order on strings, `a <= b`: lexicographic in the characters (for
UTF-8 the order of the bytes is the order of the code points). -/
def stringLe : List Char → List Char → Bool
  | [], _ => true
  | _ :: _, [] => false
  | a :: as, b :: bs =>
      if a.toNat < b.toNat then true
      else if b.toNat < a.toNat then false
      else stringLe as bs

/-- The order in which `text/template` ranges over a map with string keys:
sorted by key. -/
def rangeMap (m : List (String × String)) : List (String × String) :=
  m.insertionSort fun a b => stringLe a.1.data b.1.data = true

/-- Template `InitMsgTpl`, executed on `.GitHooks`, `.GitConfig`, `.GitIgnore`
(the field `.GTMPath` is not used by the template). -/
def InitMsgTpl (GitHooks GitConfig : List (String × String)) (GitIgnore : String) : String :=
  tplText false false
    "\nGit Time Metric has been initialized\n------------------------------------\n" ++
  -- range $hook, $command := .GitHooks -
  String.join ((rangeMap GitHooks).map fun kv =>
    tplText true false "\n" ++
    kv.1 ++
    tplText false false ": \"" ++
    kv.2 ++
    tplText false false "\"\n") ++
  -- end -
  tplText true false "\n" ++
  -- range $key, $val := .GitConfig -
  String.join ((rangeMap GitConfig).map fun kv =>
    tplText true false "\n" ++
    kv.1 ++
    tplText false false ": \"" ++
    kv.2 ++
    tplText false false "\"\n") ++
  -- end -
  tplText true false "\ngitignore: \"" ++
  GitIgnore ++
  tplText false false "\"\n"

/-- The operating system and package `scm`, as operations on a world state `σ`.
An operation that can change the world returns its error, if any, and the world
it leaves behind. -/
structure Sys (σ : Type) where
  /-- The call `os.Getwd()`. -/
  Getwd : σ → Except ExtError String
  /-- The call `filepath.Join(a, b)`. -/
  Join : String → String → String
  /-- For a path `p`, the value of `os.IsNotExist(err)` for the error of `os.Stat(p)`. -/
  StatNotExist : σ → String → Bool
  /-- The call `os.MkdirAll(path, perm)`. -/
  MkdirAll : String → Nat → σ → Option ExtError × σ
  /-- The call `scm.GitInitHooks(hooks)`. -/
  GitInitHooks : List (String × String) → σ → Option ExtError × σ
  /-- The call `scm.GitConfig(settings)`. -/
  GitConfig : List (String × String) → σ → Option ExtError × σ
  /-- The call `scm.GitIgnore(pattern)`. -/
  GitIgnore : String → σ → Option ExtError × σ
  /-- The call `scm.GitRootPath(dir)`. -/
  GitRootPath : String → σ → Except ExtError String

/-- A call that can change the world, as recorded in the trace of a run. -/
inductive Call where
  | MkdirAll (path : String) (perm : Nat)
  | GitInitHooks (hooks : List (String × String))
  | GitConfig (settings : List (String × String))
  | GitIgnore (pattern : String)
deriving DecidableEq, Repr

/-- What a run of `Initialize` leaves: the two returned values, the world after
the run, and the world-changing calls made, in order. -/
structure Run (σ : Type) where
  msg : String
  err : Option GoError
  world : σ
  trace : List Call

/-- The error of `Initialize` for a directory without a `.git` entry. -/
def RepoNotFound (wd : String) : GoError :=
  .Errorf (Sprintf "Unable to intialize Git Time Metric, Git repository not found in %s" [wd])

/-- Function `Initialize`. -/
def Initialize {σ : Type} (sys : Sys σ) (s : σ) : Run σ :=
  match sys.Getwd s with
  | .error err => ⟨"", some (.external err), s, []⟩
  | .ok wd =>
    let fp := sys.Join wd ".git"
    if sys.StatNotExist s fp then
      ⟨"", some (RepoNotFound wd), s, []⟩
    else
      let fp := sys.Join wd GTMDirectory
      let r1 : Option ExtError × σ × List Call :=
        if sys.StatNotExist s fp then
          ((sys.MkdirAll fp 0o700 s).1, (sys.MkdirAll fp 0o700 s).2, [Call.MkdirAll fp 0o700])
        else (none, s, [])
      match r1 with
      | (some err, s1, t1) => ⟨"", some (.external err), s1, t1⟩
      | (none, s1, t1) =>
        match sys.GitInitHooks GitHooks s1 with
        | (some err, s2) => ⟨"", some (.external err), s2, t1 ++ [Call.GitInitHooks GitHooks]⟩
        | (none, s2) =>
          match sys.GitConfig GitConfig s2 with
          | (some err, s3) =>
              ⟨"", some (.external err), s3,
                t1 ++ [Call.GitInitHooks GitHooks, Call.GitConfig GitConfig]⟩
          | (none, s3) =>
            match sys.GitIgnore GitIgnore s3 with
            | (some err, s4) =>
                ⟨"", some (.external err), s4,
                  t1 ++ [Call.GitInitHooks GitHooks, Call.GitConfig GitConfig,
                    Call.GitIgnore GitIgnore]⟩
            | (none, s4) =>
                ⟨InitMsgTpl GitHooks GitConfig GitIgnore, none, s4,
                  t1 ++ [Call.GitInitHooks GitHooks, Call.GitConfig GitConfig,
                    Call.GitIgnore GitIgnore]⟩

/-- Function value `Paths`; `path` is its variadic argument. -/
def Paths {σ : Type} (sys : Sys σ) (s : σ) (path : List String) :
    String × String × Option GoError :=
  let p := if h : path.length > 0 then path[0] else ""
  match sys.GitRootPath p s with
  | .error _ => ("", "", some .ErrNotInitialized)
  | .ok rootPath =>
    let gtmPath := sys.Join rootPath GTMDirectory
    if sys.StatNotExist s gtmPath then ("", "", some .ErrNotInitialized)
    else (rootPath, gtmPath, none)


/-! ## Notions of the specification -/

/-- A commit in which the hash and the subject are each wrapped in the emphasis
markers, everything else unchanged. -/
def emphasised (n : commitNoteDetail) : commitNoteDetail :=
  { n with
    Hash := "\x1b[1m" ++ n.Hash ++ "\x1b[0m"
    Subject := "\x1b[1m" ++ n.Subject ++ "\x1b[0m" }

/-- A text without the escape character, with which both emphasis markers start. -/
def hasNoEscape (s : String) : Prop := '\x1b' ∉ s.data

/-- The fields of a commit are free of escape characters. -/
def plainData (note : commitNoteDetail) : Prop :=
  hasNoEscape note.Hash ∧ hasNoEscape note.Subject ∧ hasNoEscape note.Date ∧
    hasNoEscape note.Author ∧
    ∀ f ∈ note.Note.Files, hasNoEscape f.Status ∧ hasNoEscape f.SourceFile

/-- A line: a text with exactly one line break. -/
def isLine (s : String) : Prop := s.data.count '\n' = 1

/-! ## The scenario of the specification, used for the concrete checks -/

/-- A stand-in for `util.FormatDuration` on the durations of the scenario. -/
def scenarioFormat (secs : Int) : String :=
  if secs = 60 then "1m 0s" else if secs = 120 then "2m 0s"
  else if secs = 180 then "3m 0s" else "0s"

/-- Commit A of the scenario: two files, 120 and 60 seconds. -/
def noteA : commitNoteDetail :=
  { Author := "alice", Date := "2016-06-19", Hash := "a1b2c3d", Subject := "Add parser",
    Note := ⟨[⟨"file1.ext", 120, "M"⟩, ⟨"file2.ext", 60, "M"⟩]⟩ }

/-- Commit B of the scenario: no note, hence no files. -/
def noteB : commitNoteDetail :=
  { Author := "bob", Date := "2016-06-20", Hash := "e4f5a6b", Subject := "Fix typo",
    Note := ⟨[]⟩ }

/-- The notes of the scenario, looked up by commit name. -/
def scenarioNotes (commits : List String) : List commitNoteDetail :=
  commits.filterMap fun c =>
    if c = "A" then some noteA else if c = "B" then some noteB else none

/-- The scenario, with output that is not a terminal. -/
def scenarioEnv : ReportEnv :=
  { FormatDuration := scenarioFormat, retrieveNotes := scenarioNotes, IsTerminal := false }


/-! ## A small world, used for the concrete checks of `env.go` -/

/-- A world: the current directory, the paths that exist, the root that git
reports for the current directory, what has been installed, and the names of
the operations that fail. -/
structure World where
  cwd : String
  entries : List String
  root : Option String
  hooks : List (String × String)
  config : List (String × String)
  ignored : List String
  failing : List String
deriving DecidableEq, Repr

/-- The operations on a `World`. -/
def simSys : Sys World where
  Getwd w := .ok w.cwd
  Join a b := a ++ "/" ++ b
  StatNotExist w p := !(w.entries.contains p)
  MkdirAll p _ w :=
    if w.failing.contains "MkdirAll" then (some "mkdir: permission denied", w)
    else (none, { w with entries := p :: w.entries })
  GitInitHooks h w :=
    if w.failing.contains "GitInitHooks" then (some "hooks: permission denied", w)
    else (none, { w with hooks := h })
  GitConfig c w :=
    if w.failing.contains "GitConfig" then (some "config: could not lock config file", w)
    else (none, { w with config := c })
  GitIgnore p w :=
    if w.failing.contains "GitIgnore" then (some "ignore: permission denied", w)
    else (none, { w with ignored := p :: w.ignored })
  GitRootPath _ w :=
    match w.root with
    | some r => .ok r
    | none => .error "fatal: not a git repository"

/-- A repository at `/repo` that is not yet set up, visited at its root. -/
def freshWorld : World :=
  { cwd := "/repo", entries := ["/repo", "/repo/.git", "/repo/src"], root := some "/repo",
    hooks := [], config := [], ignored := [], failing := [] }

/-- The same repository, visited in its subdirectory `/repo/src`. -/
def subdirWorld : World := { freshWorld with cwd := "/repo/src" }

/-- The same repository, with a configuration that cannot be written. -/
def lockedWorld : World := { freshWorld with failing := ["GitConfig"] }

/-- The same repository after it has been set up. -/
def readyWorld : World := { freshWorld with entries := "/repo/.gtm" :: freshWorld.entries }

/-- A directory outside every repository. -/
def outsideWorld : World :=
  { cwd := "/tmp", entries := ["/tmp"], root := none,
    hooks := [], config := [], ignored := [], failing := [] }

/-! ## Evaluation of the template texts and formats -/

@[simp] theorem tplText_plain (raw : String) : tplText false false raw = raw := rfl

@[simp] theorem tplText_nl : tplText false true "\n" = "" := by decide

@[simp] theorem tplText_nl_tab : tplText false true "\n\t" = "" := by decide

@[simp] theorem tplText_nl_tab_tab : tplText false true "\n\t\t" = "" := by decide

@[simp] theorem tplText_blank : tplText false true " " = "" := by decide

@[simp] theorem tplText_empty : tplText true false "" = "" := by decide

@[simp] theorem tplText_lead_nl : tplText true false "\n" = "" := by decide

@[simp] theorem tplText_gitignore :
    tplText true false "\ngitignore: \"" = "gitignore: \"" := by decide

@[simp] theorem padLeft_zero (s : String) : padLeft 0 s = s := by
  simp [padLeft]

/-- The field made by `%Ns` has `w` characters, or those of the operand if
there are more. -/
theorem padLeft_length (w : Nat) (s : String) : (padLeft w s).length = max w s.length := by
  simp only [padLeft, String.length, String.data_append, List.length_append,
    List.length_replicate]
  omega

@[simp] theorem Sprintf_s (x : String) : Sprintf "%s" [x] = x := by
  simp [Sprintf, sprintfAux]

@[simp] theorem Sprintf_bold (x : String) :
    Sprintf "\x1b[1m%s\x1b[0m" [x] = "\x1b[1m" ++ x ++ "\x1b[0m" := by
  simp [Sprintf, sprintfAux]
  rfl

@[simp] theorem Sprintf_nl : Sprintf "\n" [] = "\n" := by decide

@[simp] theorem Sprintf_w14 (x : String) : Sprintf "%14s" [x] = padLeft 14 x := by
  simp [Sprintf, sprintfAux]

@[simp] theorem Sprintf_nl_w14 (x : String) : Sprintf "\n%14s" [x] = "\n" ++ padLeft 14 x := by
  simp [Sprintf, sprintfAux]
  rfl

@[simp] theorem Sprintf_nl_w14_nl_nl (x : String) :
    Sprintf "\n%14s\n\n" [x] = "\n" ++ padLeft 14 x ++ "\n" ++ "\n" := by
  simp [Sprintf, sprintfAux, String.append_assoc]
  rfl

@[simp] theorem join_nil : String.join [] = "" := rfl

@[simp] theorem join_cons (a : String) (l : List String) :
    String.join (a :: l) = a ++ String.join l := by
  apply String.ext
  simp

theorem join_append (l₁ l₂ : List String) :
    String.join (l₁ ++ l₂) = String.join l₁ ++ String.join l₂ := by
  apply String.ext
  simp

/-- Lines that each start with a separator, followed by one more separator, are
the separator followed by lines that each end with it. -/
theorem join_shift (sep : String) (l : List String) :
    String.join (l.map fun x => sep ++ x) ++ sep =
      sep ++ String.join (l.map fun x => x ++ sep) := by
  induction l with
  | nil => simp
  | cons a l ih =>
    simp only [List.map_cons, join_cons, String.append_assoc]
    rw [ih]

/-! ## Closed forms of the report templates -/

theorem commitDetailsTpl_eq (fd : Int → String) (hf : String) (notes : List commitNoteDetail) :
    commitDetailsTpl fd hf notes = "\n" ++ String.join (notes.map (commitDetailsNote fd hf)) := by
  simp [commitDetailsTpl]

theorem commitTotalsTpl_eq (fd : Int → String) (hf : String) (notes : List commitNoteDetail) :
    commitTotalsTpl fd hf notes = "\n" ++ String.join (notes.map (commitTotalsNote fd hf)) := by
  simp [commitTotalsTpl]

theorem commitDetailsNote_nil (fd : Int → String) (hf : String) (note : commitNoteDetail)
    (h : note.Note.Files = []) :
    commitDetailsNote fd hf note =
      Sprintf hf [note.Hash] ++ " " ++ Sprintf hf [note.Subject] ++
        note.Date ++ " " ++ note.Author ++ "\n" ++ "\n" := by
  simp [commitDetailsNote, h, String.append_assoc]

theorem commitDetailsNote_cons (fd : Int → String) (hf : String) (note : commitNoteDetail)
    (h : note.Note.Files ≠ []) :
    commitDetailsNote fd hf note =
      Sprintf hf [note.Hash] ++ " " ++ Sprintf hf [note.Subject] ++
        note.Date ++ " " ++ note.Author ++ "\n" ++ "\n" ++
        String.join (note.Note.Files.map fun f =>
          padLeft 14 (fd f.TimeSpent) ++ "  [" ++ f.Status ++ "] " ++ f.SourceFile ++ "\n") ++
        padLeft 14 (fd note.Note.Total) ++ "\n" ++ "\n" := by
  have hs := join_shift "\n" (note.Note.Files.map fun f =>
    padLeft 14 (fd f.TimeSpent) ++ "  [" ++ f.Status ++ "] " ++ f.SourceFile)
  simp only [List.map_map, Function.comp_def] at hs
  simp only [commitDetailsNote, tplText_plain, tplText_nl, tplText_nl_tab, tplText_nl_tab_tab,
    tplText_blank, Sprintf_nl, Sprintf_nl_w14, Sprintf_nl_w14_nl_nl, String.append_empty,
    String.empty_append, String.append_assoc, ne_eq, List.length_eq_zero, h, not_false_eq_true,
    if_true] at hs ⊢
  rw [← String.append_assoc (String.join _) "\n", hs]
  simp only [String.append_assoc]

theorem commitFilesTpl_eq (fd : Int → String) (n : CommitNote) :
    commitFilesTpl fd n =
      "\n" ++ String.join (n.Files.map fun f =>
          padLeft 14 (fd f.TimeSpent) ++ "  [" ++ f.Status ++ "] " ++ f.SourceFile ++ "\n") ++
        (if n.Files = [] then "" else padLeft 14 (fd n.Total) ++ "\n") := by
  have hfile : commitFilesFile fd = fun f =>
      padLeft 14 (fd f.TimeSpent) ++ "  [" ++ f.Status ++ "] " ++ f.SourceFile ++ "\n" := by
    funext f
    simp [commitFilesFile]
  by_cases h : n.Files = []
  · simp [commitFilesTpl, h]
  · simp [commitFilesTpl, hfile, h, String.append_assoc]

theorem commitTotalsNote_eq (fd : Int → String) (hf : String) (note : commitNoteDetail) :
    commitTotalsNote fd hf note =
      Sprintf hf [note.Hash] ++ " " ++ Sprintf hf [note.Subject] ++
        note.Date ++ " " ++ note.Author ++ "  " ++
        (if note.Note.Files = [] then "" else fd note.Note.Total) ++ "\n" ++ "\n" := by
  by_cases h : note.Note.Files = []
  · simp [commitTotalsNote, Sprint, h, String.append_assoc]
  · simp [commitTotalsNote, Sprint, h, String.append_assoc]

/-- The number of line breaks of a concatenation of lines is the number of lines. -/
theorem count_join_lines (c : Char) (lines : List String)
    (h : ∀ l ∈ lines, l.data.count c = 1) :
    (String.join lines).data.count c = lines.length := by
  induction lines with
  | nil => simp
  | cons a l ih =>
    have ha := h a (List.mem_cons_self a l)
    have hl := ih fun x hx => h x (List.mem_cons_of_mem a hx)
    simp only [join_cons, String.data_append, List.count_append, List.length_cons]
    omega


/-! ## Escape characters -/

theorem hasNoEscape_append {a b : String} :
    hasNoEscape (a ++ b) ↔ hasNoEscape a ∧ hasNoEscape b := by
  simp [hasNoEscape, not_or]

theorem hasNoEscape_join {l : List String} (h : ∀ s ∈ l, hasNoEscape s) :
    hasNoEscape (String.join l) := by
  induction l with
  | nil => simp [hasNoEscape]
  | cons a l ih =>
    rw [join_cons, hasNoEscape_append]
    exact ⟨h a (List.mem_cons_self a l), ih fun s hs => h s (List.mem_cons_of_mem a hs)⟩

theorem hasNoEscape_padLeft {w : Nat} {s : String} (h : hasNoEscape s) :
    hasNoEscape (padLeft w s) := by
  rw [padLeft, hasNoEscape_append]
  refine ⟨?_, h⟩
  simp only [hasNoEscape, List.mem_replicate, not_and]
  intro _
  decide

/-! ## The detail view -/

/-- C1. For a commit with at least one file the detail view emits, after the
date, a space and the author (and the line break and the blank line that follow
them): one line per file, in the order of the files, made of the formatted
`TimeSpent` right-aligned in 14 characters, two spaces, the status in square
brackets, one space and the source file; then one line with the formatted
`Total` right-aligned in 14 characters; then one blank line. The view is a line
break followed by what is emitted for each commit, in order. -/
theorem NoteDetails_file_block (e : ReportEnv) (commits : List String) :
    NoteDetails e commits =
        .ok ("\n" ++ String.join ((e.retrieveNotes commits).map
          (commitDetailsNote e.FormatDuration (headerFormat e.IsTerminal)))) ∧
      ∀ note ∈ e.retrieveNotes commits, note.Note.Files ≠ [] →
        commitDetailsNote e.FormatDuration (headerFormat e.IsTerminal) note =
          Sprintf (headerFormat e.IsTerminal) [note.Hash] ++ " " ++
            Sprintf (headerFormat e.IsTerminal) [note.Subject] ++
            note.Date ++ " " ++ note.Author ++ "\n" ++ "\n" ++
            String.join (note.Note.Files.map fun f =>
              padLeft 14 (e.FormatDuration f.TimeSpent) ++ "  [" ++ f.Status ++ "] " ++
                f.SourceFile ++ "\n") ++
            padLeft 14 (e.FormatDuration note.Note.Total) ++ "\n" ++
            "\n" := by
  refine ⟨?_, fun note _ h => commitDetailsNote_cons _ _ note h⟩
  simp [NoteDetails, commitDetailsTpl_eq]

/-- Witness of C1: commit A of the scenario, with its two files. -/
theorem NoteDetails_file_block_witness :
    noteA ∈ scenarioEnv.retrieveNotes ["A", "B"] ∧ noteA.Note.Files ≠ [] ∧
      commitDetailsNote scenarioFormat "%s" noteA =
        "a1b2c3d Add parser2016-06-19 alice\n\n         2m 0s  [M] file1.ext\n         1m 0s  [M] file2.ext\n         3m 0s\n\n" :=
  ⟨by decide, by decide,
    ((NoteDetails_file_block scenarioEnv ["A", "B"]).2 noteA (by decide) (by decide)).trans
      (by rfl)⟩

/-- C2. The claim is that for every commit the hash and the subject form a
header line of their own, ended by a line break, with the date and the author
on the next line. At commit A of the scenario, whose subject `Add parser` is a
commit message header without a line break of its own, the detail view prints
`a1b2c3d Add parser2016-06-19 alice` on one line: the header is nowhere
followed by a line break, and the date follows the subject with nothing in
between. -/
theorem NoteDetails_header_line_failing_input :
    NoteDetails scenarioEnv ["A", "B"] =
        .ok "\na1b2c3d Add parser2016-06-19 alice\n\n         2m 0s  [M] file1.ext\n         1m 0s  [M] file2.ext\n         3m 0s\n\ne4f5a6b Fix typo2016-06-20 bob\n\n" ∧
      ¬ (noteA.Hash ++ " " ++ noteA.Subject ++ "\n").data <:+:
        "\na1b2c3d Add parser2016-06-19 alice\n\n         2m 0s  [M] file1.ext\n         1m 0s  [M] file2.ext\n         3m 0s\n\ne4f5a6b Fix typo2016-06-20 bob\n\n".data ∧
      (noteA.Subject ++ noteA.Date).data <:+:
        "\na1b2c3d Add parser2016-06-19 alice\n\n         2m 0s  [M] file1.ext\n         1m 0s  [M] file2.ext\n         3m 0s\n\ne4f5a6b Fix typo2016-06-20 bob\n\n".data := by
  refine ⟨by rfl, ?_, ?_⟩
  · set_option maxRecDepth 100000 in decide
  · exact ⟨"\na1b2c3d ".data, " alice\n\n         2m 0s  [M] file1.ext\n         1m 0s  [M] file2.ext\n         3m 0s\n\ne4f5a6b Fix typo2016-06-20 bob\n\n".data, by rfl⟩

/-- Counterexample to C3 as stated. In the detail view of commit B alone, which
has no files, the date and author are followed by two line breaks, not one: a
blank line ends what is emitted for the commit. -/
theorem NoteDetails_no_files_counterexample :
    noteB.Note.Files = [] ∧
      NoteDetails scenarioEnv ["B"] = .ok "\ne4f5a6b Fix typo2016-06-20 bob\n\n" ∧
      NoteDetails scenarioEnv ["B"] ≠
        .ok ("\n" ++ noteB.Hash ++ " " ++ noteB.Subject ++ noteB.Date ++ " " ++
          noteB.Author ++ "\n") := by
  refine ⟨rfl, by rfl, ?_⟩
  intro h
  have h2 := Except.ok.inj h
  revert h2
  decide

/-- C3, amended. For a commit without files the detail view emits the hash, one
space, the subject, the date, one space, the author and two line breaks, and
nothing else: no file line, no total line, no formatted duration. -/
theorem NoteDetails_no_files (e : ReportEnv) (commits : List String) :
    NoteDetails e commits =
        .ok ("\n" ++ String.join ((e.retrieveNotes commits).map
          (commitDetailsNote e.FormatDuration (headerFormat e.IsTerminal)))) ∧
      ∀ note ∈ e.retrieveNotes commits, note.Note.Files = [] →
        commitDetailsNote e.FormatDuration (headerFormat e.IsTerminal) note =
          Sprintf (headerFormat e.IsTerminal) [note.Hash] ++ " " ++
            Sprintf (headerFormat e.IsTerminal) [note.Subject] ++
            note.Date ++ " " ++ note.Author ++ "\n" ++ "\n" := by
  refine ⟨?_, fun note _ h => commitDetailsNote_nil _ _ note h⟩
  simp [NoteDetails, commitDetailsTpl_eq]

/-- Witness of C3, amended: commit B of the scenario. -/
theorem NoteDetails_no_files_witness :
    noteB ∈ scenarioEnv.retrieveNotes ["A", "B"] ∧ noteB.Note.Files = [] ∧
      commitDetailsNote scenarioFormat "%s" noteB = "e4f5a6b Fix typo2016-06-20 bob\n\n" :=
  ⟨by decide, rfl,
    ((NoteDetails_no_files scenarioEnv ["A", "B"]).2 noteB (by decide) rfl).trans (by rfl)⟩


/-! ## The interactive flag -/

theorem commitDetailsNote_bold (fd : Int → String) (note : commitNoteDetail) :
    commitDetailsNote fd (headerFormat true) note =
      commitDetailsNote fd (headerFormat false) (emphasised note) := by
  simp [commitDetailsNote, headerFormat, emphasised, CommitNote.Total]

theorem commitTotalsNote_bold (fd : Int → String) (note : commitNoteDetail) :
    commitTotalsNote fd (headerFormat true) note =
      commitTotalsNote fd (headerFormat false) (emphasised note) := by
  simp [commitTotalsNote, headerFormat, emphasised, CommitNote.Total]

theorem hasNoEscape_nl : hasNoEscape "\n" := by
  unfold hasNoEscape
  decide

theorem hasNoEscape_blank : hasNoEscape " " := by
  unfold hasNoEscape
  decide

theorem hasNoEscape_detailsNote (fd : Int → String) (note : commitNoteDetail)
    (hd : plainData note) (hfmt : ∀ t, hasNoEscape (fd t)) :
    hasNoEscape (commitDetailsNote fd (headerFormat false) note) := by
  obtain ⟨h1, h2, h3, h4, h5⟩ := hd
  have hnl := hasNoEscape_nl
  have hsp := hasNoEscape_blank
  have hl : hasNoEscape "  [" := by unfold hasNoEscape; decide
  have hr : hasNoEscape "] " := by unfold hasNoEscape; decide
  by_cases h : note.Note.Files = []
  · rw [commitDetailsNote_nil _ _ note h]
    simp only [headerFormat, Bool.false_eq_true, if_false, Sprintf_s, hasNoEscape_append,
      and_assoc]
    exact ⟨h1, hsp, h2, h3, hsp, h4, hnl, hnl⟩
  · rw [commitDetailsNote_cons _ _ note h]
    simp only [headerFormat, Bool.false_eq_true, if_false, Sprintf_s, hasNoEscape_append,
      and_assoc]
    refine ⟨h1, hsp, h2, h3, hsp, h4, hnl, hnl, ?_, hasNoEscape_padLeft (hfmt _), hnl, hnl⟩
    apply hasNoEscape_join
    intro s hs
    obtain ⟨f, hf, rfl⟩ := List.mem_map.1 hs
    simp only [hasNoEscape_append, and_assoc]
    exact ⟨hasNoEscape_padLeft (hfmt _), hl, (h5 f hf).1, hr, (h5 f hf).2, hnl⟩

theorem hasNoEscape_totalsNote (fd : Int → String) (note : commitNoteDetail)
    (hd : plainData note) (hfmt : ∀ t, hasNoEscape (fd t)) :
    hasNoEscape (commitTotalsNote fd (headerFormat false) note) := by
  obtain ⟨h1, h2, h3, h4, _⟩ := hd
  have hnl := hasNoEscape_nl
  have hsp := hasNoEscape_blank
  have hsp2 : hasNoEscape "  " := by unfold hasNoEscape; decide
  have he : hasNoEscape "" := by unfold hasNoEscape; decide
  rw [commitTotalsNote_eq]
  simp only [headerFormat, Bool.false_eq_true, if_false, Sprintf_s, hasNoEscape_append,
    and_assoc]
  refine ⟨h1, hsp, h2, h3, hsp, h4, hsp2, ?_, hnl, hnl⟩
  split
  · exact he
  · exact hfmt _

theorem NoteDetails_eq (e : ReportEnv) (commits : List String) :
    NoteDetails e commits =
      .ok ("\n" ++ String.join ((e.retrieveNotes commits).map
        (commitDetailsNote e.FormatDuration (headerFormat e.IsTerminal)))) := by
  simp [NoteDetails, commitDetailsTpl_eq]

theorem NoteDetailsTotal_eq (e : ReportEnv) (commits : List String) :
    NoteDetailsTotal e commits =
      .ok ("\n" ++ String.join ((e.retrieveNotes commits).map
        (commitTotalsNote e.FormatDuration (headerFormat e.IsTerminal)))) := by
  simp [NoteDetailsTotal, commitTotalsTpl_eq]

/-- C4. With the interactive flag set the header format wraps its operand in
the markers `\x1b[1m` and `\x1b[0m`, with the flag unset it prints the operand
as it is. The detail view and the totals view rendered with the flag set are
the same views rendered with the flag unset on the same commits with each hash
and each subject wrapped in the two markers, so that no other character
differs; and with the flag unset the views hold no escape character, hence no
emphasis marker, when the data and the formatted durations hold none. -/
theorem interactive_flag_only_emphasises (e : ReportEnv) (commits : List String) :
    (∀ x, Sprintf (headerFormat true) [x] = "\x1b[1m" ++ x ++ "\x1b[0m" ∧
        Sprintf (headerFormat false) [x] = x) ∧
      NoteDetails { e with IsTerminal := true } commits =
        NoteDetails { e with
          IsTerminal := false
          retrieveNotes := fun c => (e.retrieveNotes c).map emphasised } commits ∧
      NoteDetailsTotal { e with IsTerminal := true } commits =
        NoteDetailsTotal { e with
          IsTerminal := false
          retrieveNotes := fun c => (e.retrieveNotes c).map emphasised } commits ∧
      ((∀ note ∈ e.retrieveNotes commits, plainData note) →
        (∀ t, hasNoEscape (e.FormatDuration t)) →
        (∃ out, NoteDetails { e with IsTerminal := false } commits = .ok out ∧
          hasNoEscape out) ∧
        ∃ out, NoteDetailsTotal { e with IsTerminal := false } commits = .ok out ∧
          hasNoEscape out) := by
  refine ⟨fun x => ⟨by simp [headerFormat], by simp [headerFormat]⟩, ?_, ?_,
    fun hd hfmt => ⟨⟨_, NoteDetails_eq _ _, ?_⟩, ⟨_, NoteDetailsTotal_eq _ _, ?_⟩⟩⟩
  · rw [NoteDetails_eq, NoteDetails_eq]
    simp only [List.map_map]
    have hfun : commitDetailsNote e.FormatDuration (headerFormat true) =
        commitDetailsNote e.FormatDuration (headerFormat false) ∘ emphasised :=
      funext fun note => commitDetailsNote_bold _ note
    rw [hfun]
  · rw [NoteDetailsTotal_eq, NoteDetailsTotal_eq]
    simp only [List.map_map]
    have hfun : commitTotalsNote e.FormatDuration (headerFormat true) =
        commitTotalsNote e.FormatDuration (headerFormat false) ∘ emphasised :=
      funext fun note => commitTotalsNote_bold _ note
    rw [hfun]
  · rw [hasNoEscape_append]
    refine ⟨hasNoEscape_nl, hasNoEscape_join ?_⟩
    intro s hs
    obtain ⟨note, hn, rfl⟩ := List.mem_map.1 hs
    exact hasNoEscape_detailsNote _ note (hd note hn) hfmt
  · rw [hasNoEscape_append]
    refine ⟨hasNoEscape_nl, hasNoEscape_join ?_⟩
    intro s hs
    obtain ⟨note, hn, rfl⟩ := List.mem_map.1 hs
    exact hasNoEscape_totalsNote _ note (hd note hn) hfmt


theorem plainData_scenario : ∀ note ∈ scenarioEnv.retrieveNotes ["A", "B"], plainData note := by
  intro note hn
  have hn2 : note = noteA ∨ note = noteB := by
    have : scenarioEnv.retrieveNotes ["A", "B"] = [noteA, noteB] := by decide
    rw [this] at hn
    simpa using hn
  rcases hn2 with rfl | rfl
  · unfold plainData hasNoEscape
    decide
  · unfold plainData hasNoEscape
    decide

theorem hasNoEscape_scenarioFormat : ∀ t, hasNoEscape (scenarioFormat t) := by
  intro t
  unfold scenarioFormat hasNoEscape
  split_ifs <;> decide

/-- Witness of C4: the scenario, whose data hold no escape character. -/
theorem interactive_flag_only_emphasises_witness :
    (∀ note ∈ scenarioEnv.retrieveNotes ["A", "B"], plainData note) ∧
      (∀ t, hasNoEscape (scenarioEnv.FormatDuration t)) ∧
      (∃ out, NoteDetails { scenarioEnv with IsTerminal := false } ["A", "B"] = .ok out ∧
        hasNoEscape out) ∧
      ∃ out, NoteDetailsTotal { scenarioEnv with IsTerminal := false } ["A", "B"] = .ok out ∧
        hasNoEscape out :=
  ⟨plainData_scenario, hasNoEscape_scenarioFormat,
    (interactive_flag_only_emphasises scenarioEnv ["A", "B"]).2.2.2 plainData_scenario
      hasNoEscape_scenarioFormat⟩

/-! ## The files-only view -/

/-- Counterexample to C5 as stated. For the note of commit A, with two files,
`NoteFiles` returns a text that starts with a line break; it has four line
breaks and so is not made of one line per file and the line of the total. -/
theorem NoteFiles_lines_counterexample :
    NoteFiles scenarioFormat noteA.Note =
        .ok "\n         2m 0s  [M] file1.ext\n         1m 0s  [M] file2.ext\n         3m 0s\n" ∧
      ¬ ∃ lines : List String, lines.length = noteA.Note.Files.length + 1 ∧
        (∀ l ∈ lines, isLine l) ∧
        NoteFiles scenarioFormat noteA.Note = .ok (String.join lines) := by
  refine ⟨by rfl, ?_⟩
  rintro ⟨lines, hlen, hl, heq⟩
  have h1 : NoteFiles scenarioFormat noteA.Note =
      .ok "\n         2m 0s  [M] file1.ext\n         1m 0s  [M] file2.ext\n         3m 0s\n" := by
    rfl
  rw [h1] at heq
  have h2 := congrArg (fun s : String => s.data.count '\n') (Except.ok.inj heq)
  simp only [] at h2
  rw [count_join_lines '\n' lines hl, hlen] at h2
  revert h2
  decide

/-- C5, amended. `NoteFiles` returns without error a text that is one line
break followed by one line per file, in the order of the files, each made of
the formatted `TimeSpent` right-aligned in 14 characters, two spaces, the
status in square brackets, one space and the source file, followed by a line
with the formatted `Total` right-aligned in 14 characters exactly when the note
has a file; the text holds no hash, subject, date or author. For a commit with
files, the detail view emits this very text between the line break that ends
the date and author and its final blank line. -/
theorem NoteFiles_lines (fd : Int → String) (n : CommitNote) :
    NoteFiles fd n =
        .ok ("\n" ++
          String.join (n.Files.map fun f =>
            padLeft 14 (fd f.TimeSpent) ++ "  [" ++ f.Status ++ "] " ++ f.SourceFile ++ "\n") ++
          (if n.Files = [] then "" else padLeft 14 (fd n.Total) ++ "\n")) ∧
      ∀ (hf : String) (note : commitNoteDetail), note.Note.Files ≠ [] →
        ∃ text, NoteFiles fd note.Note = .ok text ∧
          commitDetailsNote fd hf note =
            Sprintf hf [note.Hash] ++ " " ++ Sprintf hf [note.Subject] ++
              note.Date ++ " " ++ note.Author ++ "\n" ++ text ++ "\n" := by
  refine ⟨by rw [NoteFiles, commitFilesTpl_eq], ?_⟩
  intro hf note h
  refine ⟨_, by rw [NoteFiles, commitFilesTpl_eq], ?_⟩
  rw [commitDetailsNote_cons _ _ note h]
  simp only [h, if_false, String.append_assoc]

/-- Witness of C5, amended: the note of commit A inside commit A. -/
theorem NoteFiles_lines_witness :
    noteA.Note.Files ≠ [] ∧
      ∃ text, NoteFiles scenarioFormat noteA.Note = .ok text ∧
        commitDetailsNote scenarioFormat "%s" noteA =
          Sprintf "%s" [noteA.Hash] ++ " " ++ Sprintf "%s" [noteA.Subject] ++
            noteA.Date ++ " " ++ noteA.Author ++ "\n" ++ text ++ "\n" :=
  ⟨by decide, (NoteFiles_lines scenarioFormat noteA.Note).2 "%s" noteA (by decide)⟩

/-! ## The totals view -/

/-- Counterexample to C6 as stated. The totals view of the scenario starts with
a line break and has a blank line after the line of each commit: it has five
line breaks and so is not the concatenation of one line per commit. -/
theorem NoteDetailsTotal_lines_counterexample :
    NoteDetailsTotal scenarioEnv ["A", "B"] =
        .ok "\na1b2c3d Add parser2016-06-19 alice  3m 0s\n\ne4f5a6b Fix typo2016-06-20 bob  \n\n" ∧
      ¬ ∃ lines : List String, lines.length = (scenarioEnv.retrieveNotes ["A", "B"]).length ∧
        (∀ l ∈ lines, isLine l) ∧
        NoteDetailsTotal scenarioEnv ["A", "B"] = .ok (String.join lines) := by
  refine ⟨by rfl, ?_⟩
  rintro ⟨lines, hlen, hl, heq⟩
  have h1 : NoteDetailsTotal scenarioEnv ["A", "B"] =
      .ok "\na1b2c3d Add parser2016-06-19 alice  3m 0s\n\ne4f5a6b Fix typo2016-06-20 bob  \n\n" := by
    rfl
  rw [h1] at heq
  have h2 := congrArg (fun s : String => s.data.count '\n') (Except.ok.inj heq)
  simp only [] at h2
  rw [count_join_lines '\n' lines hl, hlen] at h2
  revert h2
  decide

/-- C6, amended. The totals view is one line break followed by the
concatenation, in input order and with duplicates kept, of one block per
commit: a line made of the hash, one space, the subject, the date, one space,
the author, two spaces and the formatted `Total`, followed by one blank line.
The formatted `Total` is left out exactly when the commit has no files. -/
theorem NoteDetailsTotal_blocks (e : ReportEnv) (commits : List String) :
    NoteDetailsTotal e commits =
      .ok ("\n" ++ String.join ((e.retrieveNotes commits).map fun note =>
        Sprintf (headerFormat e.IsTerminal) [note.Hash] ++ " " ++
          Sprintf (headerFormat e.IsTerminal) [note.Subject] ++
          note.Date ++ " " ++ note.Author ++ "  " ++
          (if note.Note.Files = [] then "" else e.FormatDuration note.Note.Total) ++
          "\n" ++ "\n")) := by
  rw [NoteDetailsTotal_eq]
  have hfun : commitTotalsNote e.FormatDuration (headerFormat e.IsTerminal) = fun note =>
      Sprintf (headerFormat e.IsTerminal) [note.Hash] ++ " " ++
        Sprintf (headerFormat e.IsTerminal) [note.Subject] ++
        note.Date ++ " " ++ note.Author ++ "  " ++
        (if note.Note.Files = [] then "" else e.FormatDuration note.Note.Total) ++
        "\n" ++ "\n" :=
    funext fun note => commitTotalsNote_eq _ _ note
  rw [hfun]


/-! ## Paths -/

/-- C7. `Paths` looks the root up with `GitRootPath` on its first argument, or
on the empty string when it has none. If the lookup fails, or if it succeeds
and the ledger directory (the root joined with `.gtm`) does not exist, `Paths`
returns two empty paths and `ErrNotInitialized`; otherwise it returns the root,
the root joined with `.gtm`, and no error. -/
theorem Paths_result {σ : Type} (sys : Sys σ) (s : σ) (path : List String) :
    (∀ err, sys.GitRootPath (path.headD "") s = .error err →
        Paths sys s path = ("", "", some .ErrNotInitialized)) ∧
      (∀ root, sys.GitRootPath (path.headD "") s = .ok root →
        sys.StatNotExist s (sys.Join root ".gtm") = true →
        Paths sys s path = ("", "", some .ErrNotInitialized)) ∧
      (∀ root, sys.GitRootPath (path.headD "") s = .ok root →
        sys.StatNotExist s (sys.Join root ".gtm") = false →
        Paths sys s path = (root, sys.Join root ".gtm", none)) := by
  have hp : (if h : path.length > 0 then path[0] else "") = path.headD "" := by
    cases path <;> simp
  refine ⟨fun err h => ?_, fun root h hs => ?_, fun root h hs => ?_⟩
  · simp only [Paths, hp, h]
  · simp only [Paths, hp, h, GTMDirectory, hs, if_true]
  · simp only [Paths, hp, h, GTMDirectory, hs, Bool.false_eq_true, if_false]

/-- Witness of C7: outside every repository, in a repository that is not set
up, and in one that is; the last one also with a directory given. -/
theorem Paths_result_witness :
    Paths simSys outsideWorld [] = ("", "", some .ErrNotInitialized) ∧
      Paths simSys freshWorld [] = ("", "", some .ErrNotInitialized) ∧
      Paths simSys readyWorld [] = ("/repo", "/repo/.gtm", none) ∧
      Paths simSys readyWorld ["/repo/src"] = ("/repo", "/repo/.gtm", none) :=
  ⟨(Paths_result simSys outsideWorld []).1 "fatal: not a git repository" rfl,
    (Paths_result simSys freshWorld []).2.1 "/repo" rfl (by decide),
    (Paths_result simSys readyWorld []).2.2 "/repo" rfl (by decide),
    (Paths_result simSys readyWorld ["/repo/src"]).2.2 "/repo" rfl (by decide)⟩


/-! ## Initialize -/

/-- The run of `Initialize` in a directory with a `.git` entry, step by step. -/
theorem Initialize_steps {σ : Type} (sys : Sys σ) (s : σ) (wd : String)
    (hwd : sys.Getwd s = .ok wd) (hgit : sys.StatNotExist s (sys.Join wd ".git") = false) :
    let fp := sys.Join wd ".gtm"
    let absent := sys.StatNotExist s fp
    let r1 := sys.MkdirAll fp 0o700 s
    let s1 := if absent then r1.2 else s
    let t1 := if absent then [Call.MkdirAll fp 0o700] else []
    let r2 := sys.GitInitHooks GitHooks s1
    let r3 := sys.GitConfig GitConfig r2.2
    let r4 := sys.GitIgnore GitIgnore r3.2
    (∀ e, absent = true → r1.1 = some e →
        Initialize sys s = ⟨"", some (.external e), r1.2, [Call.MkdirAll fp 0o700]⟩) ∧
      ((absent = true → r1.1 = none) →
        (∀ e, r2.1 = some e →
          Initialize sys s =
            ⟨"", some (.external e), r2.2, t1 ++ [Call.GitInitHooks GitHooks]⟩) ∧
        (r2.1 = none →
          (∀ e, r3.1 = some e →
            Initialize sys s =
              ⟨"", some (.external e), r3.2,
                t1 ++ [Call.GitInitHooks GitHooks, Call.GitConfig GitConfig]⟩) ∧
          (r3.1 = none →
            (∀ e, r4.1 = some e →
              Initialize sys s =
                ⟨"", some (.external e), r4.2,
                  t1 ++ [Call.GitInitHooks GitHooks, Call.GitConfig GitConfig,
                    Call.GitIgnore GitIgnore]⟩) ∧
            (r4.1 = none →
              Initialize sys s =
                ⟨InitMsgTpl GitHooks GitConfig GitIgnore, none, r4.2,
                  t1 ++ [Call.GitInitHooks GitHooks, Call.GitConfig GitConfig,
                    Call.GitIgnore GitIgnore]⟩)))) := by
  intro fp absent r1 s1 t1 r2 r3 r4
  have hfp : sys.Join wd GTMDirectory = fp := rfl
  refine ⟨fun e ha h1 => ?_, fun h1 => ?_⟩
  · have ha2 : sys.StatNotExist s fp = true := ha
    have h12 : (sys.MkdirAll fp 0o700 s).1 = some e := h1
    simp only [Initialize, hwd, hgit, hfp, ha2, h12, Bool.false_eq_true, if_false, if_true]
  · have hr1 : (if sys.StatNotExist s fp then
          ((sys.MkdirAll fp 0o700 s).1, (sys.MkdirAll fp 0o700 s).2, [Call.MkdirAll fp 0o700])
        else ((none : Option ExtError), s, [])) = (none, s1, t1) := by
      by_cases ha : sys.StatNotExist s fp = true
      · have h12 : (sys.MkdirAll fp 0o700 s).1 = none := h1 ha
        simp only [ha, if_true, h12, s1, t1, absent, r1]
      · simp only [ha, Bool.false_eq_true, if_false, s1, t1, absent]
    have e2 : sys.GitInitHooks GitHooks s1 = (r2.1, r2.2) := rfl
    have e3 : sys.GitConfig GitConfig r2.2 = (r3.1, r3.2) := rfl
    have e4 : sys.GitIgnore GitIgnore r3.2 = (r4.1, r4.2) := rfl
    refine ⟨fun e h2 => ?_, fun h2 => ⟨fun e h3 => ?_, fun h3 => ⟨fun e h4 => ?_, fun h4 => ?_⟩⟩⟩
    · simp only [Initialize, hwd, hgit, hfp, hr1, Bool.false_eq_true, if_false, e2, h2]
    · simp only [Initialize, hwd, hgit, hfp, hr1, Bool.false_eq_true, if_false, e2, h2, e3, h3]
    · simp only [Initialize, hwd, hgit, hfp, hr1, Bool.false_eq_true, if_false, e2, h2, e3, h3,
        e4, h4]
    · simp only [Initialize, hwd, hgit, hfp, hr1, Bool.false_eq_true, if_false, e2, h2, e3, h3,
        e4, h4]


/-- C9. `Initialize` runs, in this order, `MkdirAll` on the ledger directory
(only when it does not exist), `GitInitHooks`, `GitConfig` and `GitIgnore`.
When one of them returns an error, `Initialize` returns an empty message and
that very error, the calls made are the ones up to and including the failed one,
and the world is the one the failed call left: no later step has run and
nothing has been undone. When none fails, all have run and no error is
returned. -/
theorem Initialize_fail_fast {σ : Type} (sys : Sys σ) (s : σ) (wd : String)
    (hwd : sys.Getwd s = .ok wd) (hgit : sys.StatNotExist s (sys.Join wd ".git") = false) :
    let fp := sys.Join wd ".gtm"
    let absent := sys.StatNotExist s fp
    let r1 := sys.MkdirAll fp 0o700 s
    let s1 := if absent then r1.2 else s
    let t1 := if absent then [Call.MkdirAll fp 0o700] else []
    let r2 := sys.GitInitHooks GitHooks s1
    let r3 := sys.GitConfig GitConfig r2.2
    let r4 := sys.GitIgnore GitIgnore r3.2
    (∀ e, absent = true → r1.1 = some e →
        Initialize sys s = ⟨"", some (.external e), r1.2, [Call.MkdirAll fp 0o700]⟩) ∧
      ((absent = true → r1.1 = none) →
        (∀ e, r2.1 = some e →
          Initialize sys s =
            ⟨"", some (.external e), r2.2, t1 ++ [Call.GitInitHooks GitHooks]⟩) ∧
        (r2.1 = none →
          (∀ e, r3.1 = some e →
            Initialize sys s =
              ⟨"", some (.external e), r3.2,
                t1 ++ [Call.GitInitHooks GitHooks, Call.GitConfig GitConfig]⟩) ∧
          (r3.1 = none →
            (∀ e, r4.1 = some e →
              Initialize sys s =
                ⟨"", some (.external e), r4.2,
                  t1 ++ [Call.GitInitHooks GitHooks, Call.GitConfig GitConfig,
                    Call.GitIgnore GitIgnore]⟩) ∧
            (r4.1 = none →
              Initialize sys s =
                ⟨InitMsgTpl GitHooks GitConfig GitIgnore, none, r4.2,
                  t1 ++ [Call.GitInitHooks GitHooks, Call.GitConfig GitConfig,
                    Call.GitIgnore GitIgnore]⟩)))) :=
  Initialize_steps sys s wd hwd hgit

/-- Witness of C9: the configuration cannot be written. The ledger directory
and the hooks stay, the ignore rule is never added. -/
theorem Initialize_fail_fast_witness :
    simSys.Getwd lockedWorld = .ok "/repo" ∧
      simSys.StatNotExist lockedWorld (simSys.Join "/repo" ".git") = false ∧
      Initialize simSys lockedWorld =
        ⟨"", some (.external "config: could not lock config file"),
          { lockedWorld with entries := "/repo/.gtm" :: lockedWorld.entries, hooks := GitHooks },
          [Call.MkdirAll "/repo/.gtm" 0o700, Call.GitInitHooks GitHooks,
            Call.GitConfig GitConfig]⟩ :=
  ⟨rfl, rfl,
    (((Initialize_fail_fast simSys lockedWorld "/repo" rfl rfl).2 fun _ => rfl).2 rfl).1
      "config: could not lock config file" rfl⟩

/-- When the current directory has a `.git` entry, an error of `Initialize` is
the error of one of its steps. -/
theorem Initialize_err_external {σ : Type} (sys : Sys σ) (s : σ) (wd : String)
    (hwd : sys.Getwd s = .ok wd) (hgit : sys.StatNotExist s (sys.Join wd ".git") = false) :
    (Initialize sys s).err = none ∨ ∃ e, (Initialize sys s).err = some (.external e) := by
  unfold Initialize
  simp only [hwd, hgit, Bool.false_eq_true, if_false]
  repeat' split
  all_goals first
    | exact Or.inl rfl
    | exact Or.inr ⟨_, rfl⟩

/-- Counterexample to C10 as stated. In the subdirectory `/repo/src` of the
working tree rooted at `/repo`, whose `.git` entry exists, `Initialize` fails
with the RepoNotFound error and makes no call. -/
theorem Initialize_subdirectory_counterexample :
    simSys.Getwd subdirWorld = .ok "/repo/src" ∧
      simSys.GitRootPath "" subdirWorld = .ok "/repo" ∧
      simSys.StatNotExist subdirWorld "/repo/.git" = false ∧
      Initialize simSys subdirWorld =
        ⟨"", some (.Errorf
            "Unable to intialize Git Time Metric, Git repository not found in /repo/src"),
          subdirWorld, []⟩ := by
  have hmsg : RepoNotFound "/repo/src" = .Errorf
      "Unable to intialize Git Time Metric, Git repository not found in /repo/src" := by
    set_option maxRecDepth 100000 in decide
  have hrun : Initialize simSys subdirWorld =
      ⟨"", some (RepoNotFound "/repo/src"), subdirWorld, []⟩ := rfl
  rw [hmsg] at hrun
  exact ⟨rfl, rfl, rfl, hrun⟩

/-- C10, amended. `Initialize` fails with the RepoNotFound error exactly when
the current directory is known and has no `.git` entry of its own; it then
returns an empty message, leaves the world as it was and makes no call. With a
`.git` entry in the current directory, as at the root of a repository, and
when the current directory cannot be determined, its error is never
RepoNotFound. -/
theorem Initialize_RepoNotFound {σ : Type} (sys : Sys σ) (s : σ) :
    (∀ wd, sys.Getwd s = .ok wd → sys.StatNotExist s (sys.Join wd ".git") = true →
        Initialize sys s = ⟨"", some (RepoNotFound wd), s, []⟩) ∧
      (∀ wd, sys.Getwd s = .ok wd → sys.StatNotExist s (sys.Join wd ".git") = false →
        ∀ msg, (Initialize sys s).err ≠ some (.Errorf msg)) ∧
      (∀ e, sys.Getwd s = .error e → ∀ msg, (Initialize sys s).err ≠ some (.Errorf msg)) := by
  refine ⟨fun wd hwd hgit => ?_, fun wd hwd hgit msg => ?_, fun e hwd msg => ?_⟩
  · simp only [Initialize, hwd, hgit, if_true]
  · rcases Initialize_err_external sys s wd hwd hgit with h | ⟨e, h⟩
    · rw [h]
      simp
    · rw [h]
      simp
  · simp only [Initialize, hwd]
    simp

/-- Witness of C10, amended: a directory outside every repository, the
subdirectory of a repository, and the root of a repository. -/
theorem Initialize_RepoNotFound_witness :
    Initialize simSys outsideWorld = ⟨"", some (RepoNotFound "/tmp"), outsideWorld, []⟩ ∧
      Initialize simSys subdirWorld = ⟨"", some (RepoNotFound "/repo/src"), subdirWorld, []⟩ ∧
      (∀ msg, (Initialize simSys freshWorld).err ≠ some (.Errorf msg)) :=
  ⟨(Initialize_RepoNotFound simSys outsideWorld).1 "/tmp" rfl (by decide),
    (Initialize_RepoNotFound simSys subdirWorld).1 "/repo/src" rfl (by decide),
    (Initialize_RepoNotFound simSys freshWorld).2.1 "/repo" rfl (by decide)⟩


/-! ## The message of Initialize -/

theorem Initialize_msg_of_success {σ : Type} (sys : Sys σ) (s : σ)
    (h : (Initialize sys s).err = none) :
    (Initialize sys s).msg = InitMsgTpl GitHooks GitConfig GitIgnore := by
  cases hwd : sys.Getwd s with
  | error e => simp [Initialize, hwd] at h
  | ok wd =>
    cases hgit : sys.StatNotExist s (sys.Join wd ".git") with
    | true => simp [Initialize, hwd, hgit] at h
    | false =>
      obtain ⟨h1, h2⟩ := Initialize_steps sys s wd hwd hgit
      have hm : sys.StatNotExist s (sys.Join wd ".gtm") = true →
          (sys.MkdirAll (sys.Join wd ".gtm") 0o700 s).1 = none := by
        intro ha
        cases hr : (sys.MkdirAll (sys.Join wd ".gtm") 0o700 s).1 with
        | none => rfl
        | some e =>
          rw [h1 e ha hr] at h
          simp at h
      obtain ⟨h3, h4⟩ := h2 hm
      cases hr2 : (sys.GitInitHooks GitHooks
          (if sys.StatNotExist s (sys.Join wd ".gtm") = true then
            (sys.MkdirAll (sys.Join wd ".gtm") 0o700 s).2 else s)).1 with
      | some e =>
        rw [h3 e hr2] at h
        simp at h
      | none =>
        obtain ⟨h5, h6⟩ := h4 hr2
        cases hr3 : (sys.GitConfig GitConfig (sys.GitInitHooks GitHooks
            (if sys.StatNotExist s (sys.Join wd ".gtm") = true then
              (sys.MkdirAll (sys.Join wd ".gtm") 0o700 s).2 else s)).2).1 with
        | some e =>
          rw [h5 e hr3] at h
          simp at h
        | none =>
          obtain ⟨h7, h8⟩ := h6 hr3
          cases hr4 : (sys.GitIgnore GitIgnore (sys.GitConfig GitConfig (sys.GitInitHooks GitHooks
              (if sys.StatNotExist s (sys.Join wd ".gtm") = true then
                (sys.MkdirAll (sys.Join wd ".gtm") 0o700 s).2 else s)).2).2).1 with
          | some e =>
            rw [h7 e hr4] at h
            simp at h
          | none => rw [h8 hr4]

theorem infix_join_of_mem {a : String} {l : List String} (h : a ∈ l) :
    a.data <:+: (String.join l).data := by
  obtain ⟨s, t, rfl⟩ := List.append_of_mem h
  refine ⟨(String.join s).data, (String.join t).data, ?_⟩
  simp [join_append]

theorem infix_append_left {a b : String} (c : String) (h : a.data <:+: b.data) :
    a.data <:+: (b ++ c).data := by
  obtain ⟨s, t, hst⟩ := h
  exact ⟨s, t ++ c.data, by simp [← hst]⟩

theorem infix_append_right {a b : String} (c : String) (h : a.data <:+: b.data) :
    a.data <:+: (c ++ b).data := by
  obtain ⟨s, t, hst⟩ := h
  exact ⟨c.data ++ s, t, by simp [← hst]⟩

theorem mem_rangeMap {kv : String × String} {m : List (String × String)} (h : kv ∈ m) :
    kv ∈ rangeMap m :=
  (List.perm_insertionSort _ m).mem_iff.2 h

/-- The message lists every pair of both maps, and the ignore rule, whatever
they are. -/
theorem InitMsgTpl_lists (hooks config : List (String × String)) (ignore : String) :
    (∀ kv ∈ hooks, (kv.1 ++ ": \"" ++ kv.2 ++ "\"\n").data <:+:
        (InitMsgTpl hooks config ignore).data) ∧
      (∀ kv ∈ config, (kv.1 ++ ": \"" ++ kv.2 ++ "\"\n").data <:+:
        (InitMsgTpl hooks config ignore).data) ∧
      ("gitignore: \"" ++ ignore ++ "\"\n").data <:+: (InitMsgTpl hooks config ignore).data := by
  have hline : (fun kv : String × String =>
      tplText true false "\n" ++ kv.1 ++ tplText false false ": \"" ++ kv.2 ++
        tplText false false "\"\n") = fun kv => kv.1 ++ ": \"" ++ kv.2 ++ "\"\n" := by
    funext kv
    simp
  simp only [InitMsgTpl, hline, tplText_plain, tplText_lead_nl, tplText_gitignore,
    String.append_empty]
  refine ⟨fun kv h => ?_, fun kv h => ?_, ?_⟩
  · have hm : kv.1 ++ ": \"" ++ kv.2 ++ "\"\n" ∈
        (rangeMap hooks).map fun kv => kv.1 ++ ": \"" ++ kv.2 ++ "\"\n" :=
      List.mem_map.2 ⟨kv, mem_rangeMap h, rfl⟩
    exact infix_append_left _ (infix_append_left _ (infix_append_left _ (infix_append_left _
      (infix_append_right _ (infix_join_of_mem hm)))))
  · have hm : kv.1 ++ ": \"" ++ kv.2 ++ "\"\n" ∈
        (rangeMap config).map fun kv => kv.1 ++ ": \"" ++ kv.2 ++ "\"\n" :=
      List.mem_map.2 ⟨kv, mem_rangeMap h, rfl⟩
    exact infix_append_left _ (infix_append_left _ (infix_append_left _
      (infix_append_right _ (infix_join_of_mem hm))))
  · simp only [String.append_assoc]
    exact infix_append_right _ (infix_append_right _ (infix_append_right _
      (List.infix_refl _)))

/-- C8. Whenever `Initialize` returns no error, its message holds, for every
hook of `GitHooks`, a line with the hook name and its command, for every
setting of `GitConfig`, a line with the key and its value, and the line of the
ignore rule `.gtm/`. -/
theorem Initialize_message {σ : Type} (sys : Sys σ) (s : σ)
    (h : (Initialize sys s).err = none) :
    (∀ kv ∈ GitHooks, (kv.1 ++ ": \"" ++ kv.2 ++ "\"\n").data <:+:
        (Initialize sys s).msg.data) ∧
      (∀ kv ∈ GitConfig, (kv.1 ++ ": \"" ++ kv.2 ++ "\"\n").data <:+:
        (Initialize sys s).msg.data) ∧
      "gitignore: \".gtm/\"\n".data <:+: (Initialize sys s).msg.data := by
  rw [Initialize_msg_of_success sys s h]
  exact InitMsgTpl_lists GitHooks GitConfig GitIgnore

/-- Witness of C8: the repository that is not yet set up. All four steps run
and the message is the text below. -/
theorem Initialize_message_witness :
    (Initialize simSys freshWorld).err = none ∧
      (Initialize simSys freshWorld).msg =
        "\nGit Time Metric has been initialized\n------------------------------------\npost-commit: \"gtm commit --dry-run=false\"\npre-push: \"git push --no-verify origin refs/notes/gtm-data\"\nnotes.rewriteref: \"refs/notes/gtm-data\"\nremote.origin.fetch: \"+refs/notes/gtm-data:refs/notes/gtm-data\"\ngitignore: \".gtm/\"\n" ∧
      "pre-push: \"git push --no-verify origin refs/notes/gtm-data\"\n".data <:+:
        (Initialize simSys freshWorld).msg.data := by
  refine ⟨rfl, ?_, (Initialize_message simSys freshWorld rfl).1
    ("pre-push", "git push --no-verify origin refs/notes/gtm-data") (by decide)⟩
  set_option maxRecDepth 100000 in rfl

end Gtm
